import Mathlib

/-!
Shallow embedding of the browser session manager in `src/browser.ts`
(spider-cloud-mcp-v2): module-level `sessions` map, `cleanupTimer`,
`startCleanup`, `openSession`, `getPage`, `closeSession`,
`closeAllSessions`, `getSessionCount`.

The JavaScript `Map<string, Session>` is modelled as an insertion-ordered
association list with unique keys; `Date.now()` timestamps are `Nat`
milliseconds supplied explicitly; `crypto.randomUUID()` is an explicitly
supplied fresh id; the puppeteer collaborator (connect, teardown) is
modelled by explicit success/failure parameters, since the network is
external to the manager.
-/

namespace SpiderMcp

/-- `SESSION_TIMEOUT_MS = 5 * 60 * 1000` from `src/browser.ts`. -/
def SESSION_TIMEOUT_MS : Nat := 5 * 60 * 1000

/-- `MAX_SESSIONS = 5` from `src/browser.ts`. -/
def MAX_SESSIONS : Nat := 5

/-- One entry of the `sessions` map (the `Session` interface). The
`browser`/`page` handles are opaque to the manager; the only data the
manager reads from a session is `lastAccess`. `teardownThrows` models
whether this session's `browser.close()` would throw when awaited (the
remote side may already be disconnected); the manager never reads it
except inside the swallowed `try`/`catch` of `closeSession`. -/
structure Session where
  lastAccess : Nat
  teardownThrows : Bool
deriving Repr, DecidableEq

/-- Module-level mutable state of `src/browser.ts`: the `sessions` map
(insertion-ordered, unique keys) and whether `cleanupTimer` is non-null. -/
structure ManagerState where
  sessions : List (String × Session)
  cleanupTimer : Bool
deriving Repr, DecidableEq

/-- The state at module load: empty map, `cleanupTimer = null`. -/
def initState : ManagerState := ⟨[], false⟩

/-- Keys of the map, in insertion order. -/
def keysOf (l : List (String × Session)) : List String := l.map Prod.fst

/-- Well-formedness of the embedding of a JavaScript `Map`: keys are
pairwise distinct. Every state reachable from `initState` satisfies it. -/
def WF (st : ManagerState) : Prop := (keysOf st.sessions).Nodup

instance (st : ManagerState) : Decidable (WF st) :=
  inferInstanceAs (Decidable (keysOf st.sessions).Nodup)

/-- `sessions.get(k)`. -/
def mapGet (l : List (String × Session)) (k : String) : Option Session :=
  (l.find? (fun p => p.1 = k)).map Prod.snd

/-- `sessions.set(k, v)`: replaces the entry in place when `k` is already
a key (preserving its position, as a JavaScript `Map` does), otherwise
appends the new entry at the end. -/
def mapSet (l : List (String × Session)) (k : String) (v : Session) :
    List (String × Session) :=
  if l.any (fun p => p.1 = k) then
    l.map (fun p => if p.1 = k then (k, v) else p)
  else l ++ [(k, v)]

/-- `sessions.delete(k)`: removes the entry with key `k` (with unique
keys, filtering equals deleting the one entry). -/
def mapDelete (l : List (String × Session)) (k : String) :
    List (String × Session) :=
  l.filter (fun p => p.1 ≠ k)

/-- Error taxonomy of the manager, tagging each `throw new Error(...)`
site of `src/browser.ts` with the spec's error name and carrying the
thrown message verbatim. -/
inductive BrowserError where
  | capacityExceeded (msg : String)
  | sessionNotFound (msg : String)
  | connectionError (msg : String)
deriving Repr, DecidableEq

/-- The message thrown at the capacity check of `openSession`
(interpolating `MAX_SESSIONS = 5`). -/
def capacityMessage : String :=
  "Maximum 5 concurrent browser sessions reached. " ++
    "Close an existing session with spider_browser_close first."

/-- The message thrown by `getPage` when the id is absent. -/
def notFoundMessage : String :=
  "Browser session not found. It may have expired (5 min idle timeout) or been closed. " ++
    "Open a new session with spider_browser_open."

/-- The options bag of `openSession`. -/
structure OpenOptions where
  browser : Option String := none
  stealth : Option Nat := none
  country : Option String := none
  mode : Option String := none
deriving Repr, DecidableEq

/-- Result of `await puppeteer.connect(...)` (together with the following
`browser.pages()` / `newPage()` handshake) as the manager observes it:
`.error e` if the collaborator throws, `.ok t` on success, where `t`
records whether the obtained browser's later teardown would throw. -/
def ConnectResult := Except String Bool

/-- `openSession(apiKey, options)` from `src/browser.ts`. The capacity
check runs synchronously first; on success the new session is inserted
with `lastAccess = now`, `startCleanup()` arms the timer (idempotently),
and the call returns the fresh id plus `options?.browser ?? "chrome"` as
the `browserType` descriptor. A connect failure propagates and performs
no mutation. -/
def openSession (st : ManagerState) (options : OpenOptions)
    (connect : Except String Bool) (freshId : String) (now : Nat) :
    Except BrowserError (ManagerState × String × String) :=
  if st.sessions.length ≥ MAX_SESSIONS then
    .error (.capacityExceeded capacityMessage)
  else
    match connect with
    | .error e => .error (.connectionError e)
    | .ok tThrows =>
        let st' : ManagerState :=
          { sessions := mapSet st.sessions freshId ⟨now, tThrows⟩,
            cleanupTimer := true }
        .ok (st', freshId, options.browser.getD "chrome")

/-- `getPage(sessionId)` from `src/browser.ts`: absent id throws the
not-found error; otherwise `lastAccess` is refreshed to `now` in place
and the page handle (here: the refreshed session record) is returned. -/
def getPage (st : ManagerState) (sessionId : String) (now : Nat) :
    Except BrowserError (ManagerState × Session) :=
  match mapGet st.sessions sessionId with
  | none => .error (.sessionNotFound notFoundMessage)
  | some s =>
      let s' : Session := { s with lastAccess := now }
      .ok ({ st with sessions := mapSet st.sessions sessionId s' }, s')

/-- The synchronous prefix of `closeSession(sessionId)`: the lookup and
the `sessions.delete(sessionId)`, both executed before the first `await`.
Returns the state in which the teardown `await session.browser.close()`
then runs, plus whether a teardown is invoked at all (true iff the id was
present). -/
def closeSessionSync (st : ManagerState) (sessionId : String) :
    ManagerState × Bool :=
  match mapGet st.sessions sessionId with
  | none => (st, false)
  | some _ => ({ st with sessions := mapDelete st.sessions sessionId }, true)

/-- `closeSession(sessionId)` in full. The awaited teardown mutates no
manager state and its errors are swallowed by the `try`/`catch`, so the
final state is exactly the state left by the synchronous prefix, whether
or not the teardown throws; the call never throws. -/
def closeSession (st : ManagerState) (sessionId : String) :
    ManagerState × Bool :=
  closeSessionSync st sessionId

/-- Closes each id of `ids` in turn via `closeSession`, collecting the
ids whose teardown was invoked. Models `ids.map(closeSession)` under
`Promise.allSettled`: the synchronous (table-mutating) prefixes run
back-to-back in list order, and the awaited teardowns touch no state. -/
def closeMany (st : ManagerState) : List String → ManagerState × List String
  | [] => (st, [])
  | id :: rest =>
      let r := closeSession st id
      let r' := closeMany r.1 rest
      (r'.1, if r.2 then id :: r'.2 else r'.2)

/-- `closeAllSessions()` from `src/browser.ts`: snapshots the keys,
closes every one of them (individual teardown failures are swallowed
inside `closeSession`, so none aborts the others), then unconditionally
clears `cleanupTimer`. Never throws. -/
def closeAllSessions (st : ManagerState) : ManagerState × List String :=
  let r := closeMany st (keysOf st.sessions)
  ({ r.1 with cleanupTimer := false }, r.2)

/-- `getSessionCount()`: `sessions.size`. -/
def getSessionCount (st : ManagerState) : Nat := st.sessions.length

/-- The body of one firing of the `startCleanup` interval over the entry
list: every session with `now - lastAccess > SESSION_TIMEOUT_MS` is
closed (its entry deleted, its teardown invoked), the rest are kept in
order. Returns the surviving entries and the ids torn down. `Nat`
truncated subtraction agrees with the JavaScript comparison: a
`lastAccess` in the future yields a non-positive (here zero) difference,
which is not `> SESSION_TIMEOUT_MS` either way. -/
def scanSessions (now : Nat) :
    List (String × Session) → List (String × Session) × List String
  | [] => ([], [])
  | (id, s) :: rest =>
      let r := scanSessions now rest
      if now - s.lastAccess > SESSION_TIMEOUT_MS then
        (r.1, id :: r.2)
      else ((id, s) :: r.1, r.2)

/-- One firing of the cleanup interval callback (`startCleanup`'s
arrow function): reap every idle session, then, if the table ended empty,
`clearInterval` and null the timer. -/
def cleanupScan (st : ManagerState) (now : Nat) : ManagerState × List String :=
  let r := scanSessions now st.sessions
  (⟨r.1, if r.1.isEmpty then false else st.cleanupTimer⟩, r.2)

/-- Externally triggered transitions of the manager, for whole-run
statements. Each constructor is one manager entry point run to
completion (the sequential, non-interleaved semantics), plus the two
event sources of `src/browser.ts` outside the public API: a firing of the
cleanup interval, and the `disconnected` listener registered by
`openSession` (which just deletes the table entry). -/
inductive Op where
  | openOp (options : OpenOptions) (connect : Except String Bool)
      (freshId : String) (now : Nat)
  | getPageOp (id : String) (now : Nat)
  | closeOp (id : String)
  | scanOp (now : Nat)
  | closeAllOp
  | disconnectOp (id : String)
deriving Repr

/-- Observable resource events of a run: `teardown id` records one
invocation of `session.browser.close()` for the session with that id. -/
inductive Event where
  | teardown (id : String)
deriving Repr, DecidableEq

/-- Effect of one `Op` on the state, with the teardown events it emits.
Errors thrown to the caller (capacity, connect failure, not-found) leave
the state unchanged; the interval callback only fires while the timer is
armed. -/
def step (st : ManagerState) : Op → ManagerState × List Event
  | .openOp options connect freshId now =>
      match openSession st options connect freshId now with
      | .error _ => (st, [])
      | .ok r => (r.1, [])
  | .getPageOp id now =>
      match getPage st id now with
      | .error _ => (st, [])
      | .ok r => (r.1, [])
  | .closeOp id =>
      let r := closeSession st id
      (r.1, if r.2 then [.teardown id] else [])
  | .scanOp now =>
      if st.cleanupTimer then
        let r := cleanupScan st now
        (r.1, r.2.map .teardown)
      else (st, [])
  | .closeAllOp =>
      let r := closeAllSessions st
      (r.1, r.2.map .teardown)
  | .disconnectOp id =>
      ({ st with sessions := mapDelete st.sessions id }, [])

/-- Run a list of operations from a state, concatenating events. -/
def run (st : ManagerState) : List Op → ManagerState × List Event
  | [] => (st, [])
  | op :: ops =>
      let r := step st op
      let r' := run r.1 ops
      (r'.1, r.2 ++ r'.2)

/-!
Interleaved execution of concurrent `openSession` calls, for the
single-threaded cooperative model of the JavaScript event loop. One
in-flight `openSession` call runs as two atomic segments separated by the
suspension points of `src/browser.ts` lines 75-81 (`await
puppeteer.connect(...)`, `await browser.pages()`, `await
browser.newPage()`): the first segment is the synchronous capacity check,
the second is the insertion plus `startCleanup()` after the awaits
resolve.
-/

/-- Program counter of one in-flight `openSession` call: `start` — not
yet entered; `connecting` — passed the capacity check, suspended awaiting
the connection (nothing inserted yet); `done` — inserted and returned;
`failed` — rejected at the capacity check. Connection failures are not
needed for the runs studied here, so every connect is taken to succeed. -/
inductive TaskPc where
  | start
  | connecting
  | done
  | failed
deriving Repr, DecidableEq

/-- State of the interleaved model: the manager state plus the in-flight
`openSession` calls, each with the fresh id it will insert and its
program counter. -/
structure ConcState where
  mgr : ManagerState
  tasks : List (String × TaskPc)
deriving Repr, DecidableEq

/-- Advance the `i`-th open call by one atomic segment; `none` when `i`
is out of range or that call already finished. From `start`, the
synchronous `sessions.size >= MAX_SESSIONS` check either rejects the call
or moves it to `connecting` — mutating nothing. From `connecting`, the
awaits have resolved: the session is inserted with `lastAccess = now` (a
teardown flag of `false`) and the timer armed. -/
def stepTask (cs : ConcState) (i : Nat) (now : Nat) : Option ConcState :=
  match cs.tasks[i]? with
  | none => none
  | some t =>
      match t.2 with
      | .start =>
          if cs.mgr.sessions.length ≥ MAX_SESSIONS then
            some ⟨cs.mgr, cs.tasks.set i (t.1, .failed)⟩
          else
            some ⟨cs.mgr, cs.tasks.set i (t.1, .connecting)⟩
      | .connecting =>
          some ⟨⟨mapSet cs.mgr.sessions t.1 ⟨now, false⟩, true⟩,
            cs.tasks.set i (t.1, .done)⟩
      | .done => none
      | .failed => none

/-- Run a schedule: each entry picks which in-flight open call runs its
next segment (all segments dated `now = 0`; timestamps are irrelevant to
the capacity argument). -/
def runConc (cs : ConcState) : List Nat → Option ConcState
  | [] => some cs
  | i :: rest =>
      match stepTask cs i 0 with
      | none => none
      | some cs' => runConc cs' rest

/-- Six concurrent `openSession` calls against an initially empty
manager. -/
def sixOpens : ConcState :=
  ⟨initState,
    [("s1", .start), ("s2", .start), ("s3", .start),
     ("s4", .start), ("s5", .start), ("s6", .start)]⟩

/-- A schedule for `sixOpens`: the first four opens run to completion one
after the other (count reaches 4), then opens 4 and 5 both run their
capacity check (each sees 4 < 5 and passes) before either resumes from
the connect await; finally both insert. -/
def overCapSchedule : List Nat :=
  [0, 0, 1, 1, 2, 2, 3, 3, 4, 5, 4, 5]

/-! Lemmas about the map embedding. -/

theorem mapGet_nil (k : String) : mapGet [] k = none := rfl

theorem mapGet_cons (q : String × Session) (l : List (String × Session))
    (k : String) :
    mapGet (q :: l) k = if q.1 = k then some q.2 else mapGet l k := by
  by_cases h : q.1 = k <;> simp [mapGet, List.find?_cons, h]

theorem mapGet_eq_none_iff (l : List (String × Session)) (k : String) :
    mapGet l k = none ↔ ∀ p ∈ l, p.1 ≠ k := by
  induction l with
  | nil => simp [mapGet_nil]
  | cons q l ih =>
      rw [mapGet_cons]
      by_cases h : q.1 = k <;> simp [h, ih]

theorem mapGet_isSome_iff_any (l : List (String × Session)) (k : String) :
    (mapGet l k).isSome = l.any (fun p => p.1 = k) := by
  induction l with
  | nil => simp [mapGet_nil]
  | cons q l ih =>
      rw [mapGet_cons]
      by_cases h : q.1 = k <;> simp [h, ih]

theorem mapGet_mem (l : List (String × Session)) (k : String) (s : Session)
    (h : mapGet l k = some s) : (k, s) ∈ l := by
  induction l with
  | nil => simp [mapGet_nil] at h
  | cons q l ih =>
      rw [mapGet_cons] at h
      by_cases hq : q.1 = k
      · rw [if_pos hq] at h
        obtain ⟨a, b⟩ := q
        injection h with h1
        subst h1
        cases hq
        exact List.mem_cons_self _ _
      · rw [if_neg hq] at h
        exact List.mem_cons_of_mem _ (ih h)

theorem mapGet_mapDelete_self (l : List (String × Session)) (k : String) :
    mapGet (mapDelete l k) k = none := by
  rw [mapGet_eq_none_iff]
  intro p hp
  have := List.of_mem_filter hp
  simpa using this

theorem mapGet_mapDelete_ne (l : List (String × Session)) (k k' : String)
    (h : k' ≠ k) : mapGet (mapDelete l k) k' = mapGet l k' := by
  induction l with
  | nil => rfl
  | cons q l ih =>
      simp only [mapDelete, List.filter_cons] at *
      by_cases hq : q.1 = k
      · have hq' : ¬ q.1 = k' := fun e => h (e.symm.trans hq)
        rw [if_neg (by simp [hq])]
        rw [ih, mapGet_cons, if_neg hq']
      · rw [if_pos (by simp [hq])]
        rw [mapGet_cons, mapGet_cons, ih]

theorem mapDelete_of_absent (l : List (String × Session)) (k : String)
    (h : mapGet l k = none) : mapDelete l k = l := by
  rw [mapGet_eq_none_iff] at h
  exact List.filter_eq_self.mpr (fun p hp => by simpa using h p hp)

theorem keysOf_mapSet (l : List (String × Session)) (k : String) (v : Session) :
    keysOf (mapSet l k v) =
      if l.any (fun p => p.1 = k) then keysOf l else keysOf l ++ [k] := by
  by_cases h : l.any (fun p => p.1 = k)
  · rw [if_pos h]
    simp only [mapSet, if_pos h, keysOf, List.map_map]
    apply List.map_congr_left
    intro p _
    by_cases hp : p.1 = k <;> simp [hp]
  · rw [if_neg h]
    simp [mapSet, h, keysOf]

theorem any_key_iff_mem (l : List (String × Session)) (k : String) :
    l.any (fun p => p.1 = k) = true ↔ k ∈ keysOf l := by
  simp [keysOf, List.any_eq_true]

theorem mapGet_replace (l : List (String × Session)) (k : String)
    (v : Session) (h : k ∈ keysOf l) :
    mapGet (l.map (fun p => if p.1 = k then (k, v) else p)) k = some v := by
  induction l with
  | nil => cases h
  | cons q l ih =>
      rw [List.map_cons]
      by_cases hq : q.1 = k
      · rw [if_pos hq, mapGet_cons, if_pos rfl]
      · rw [if_neg hq, mapGet_cons, if_neg hq]
        apply ih
        rw [keysOf, List.map_cons] at h
        rcases List.mem_cons.mp h with e | h'
        · exact absurd e.symm hq
        · exact h'

theorem mapGet_replace_ne (l : List (String × Session)) (k k' : String)
    (v : Session) (h : k' ≠ k) :
    mapGet (l.map (fun p => if p.1 = k then (k, v) else p)) k' = mapGet l k' := by
  induction l with
  | nil => rfl
  | cons q l ih =>
      rw [List.map_cons]
      by_cases hq : q.1 = k
      · rw [if_pos hq, mapGet_cons, mapGet_cons,
          if_neg (show ¬(k, v).1 = k' from fun e => h e.symm),
          if_neg (fun e => h (e.symm.trans hq))]
        exact ih
      · rw [if_neg hq, mapGet_cons, mapGet_cons, ih]

theorem mapGet_append_single (l : List (String × Session)) (k : String)
    (v : Session) (h : mapGet l k = none) :
    mapGet (l ++ [(k, v)]) k = some v := by
  induction l with
  | nil => simp [mapGet_cons]
  | cons q l ih =>
      rw [mapGet_cons] at h
      by_cases hq : q.1 = k
      · rw [if_pos hq] at h; cases h
      · rw [if_neg hq] at h
        rw [List.cons_append, mapGet_cons, if_neg hq]
        exact ih h

theorem mapGet_append_single_ne (l : List (String × Session)) (k k' : String)
    (v : Session) (h : k' ≠ k) : mapGet (l ++ [(k, v)]) k' = mapGet l k' := by
  induction l with
  | nil =>
      simp [mapGet_nil, mapGet_cons, show ¬(k, v).1 = k' from fun e => h e.symm]
  | cons q l ih => rw [List.cons_append, mapGet_cons, mapGet_cons, ih]

theorem mapGet_mapSet_self (l : List (String × Session)) (k : String)
    (v : Session) : mapGet (mapSet l k v) k = some v := by
  by_cases h : l.any (fun p => p.1 = k)
  · rw [mapSet, if_pos h]
    exact mapGet_replace l k v ((any_key_iff_mem l k).mp h)
  · rw [mapSet, if_neg h]
    apply mapGet_append_single
    rw [← Option.not_isSome_iff_eq_none, mapGet_isSome_iff_any]
    exact h

theorem mapGet_mapSet_ne (l : List (String × Session)) (k k' : String)
    (v : Session) (h : k' ≠ k) : mapGet (mapSet l k v) k' = mapGet l k' := by
  by_cases ha : l.any (fun p => p.1 = k)
  · rw [mapSet, if_pos ha]
    exact mapGet_replace_ne l k k' v h
  · rw [mapSet, if_neg ha]
    exact mapGet_append_single_ne l k k' v h

theorem length_mapSet (l : List (String × Session)) (k : String) (v : Session) :
    (mapSet l k v).length =
      if l.any (fun p => p.1 = k) then l.length else l.length + 1 := by
  by_cases h : l.any (fun p => p.1 = k) <;> simp [mapSet, h]

theorem nodup_keysOf_mapSet (l : List (String × Session)) (k : String)
    (v : Session) (h : (keysOf l).Nodup) : (keysOf (mapSet l k v)).Nodup := by
  rw [keysOf_mapSet]
  by_cases ha : l.any (fun p => p.1 = k)
  · rwa [if_pos ha]
  · rw [if_neg ha]
    have hk : k ∉ keysOf l := fun hmem => ha ((any_key_iff_mem l k).mpr hmem)
    simp [List.nodup_append, h, hk]

theorem keysOf_sublist_of_filter (l : List (String × Session))
    (p : String × Session → Bool) :
    (keysOf (l.filter p)).Sublist (keysOf l) :=
  (l.filter_sublist).map Prod.fst

theorem nodup_keysOf_mapDelete (l : List (String × Session)) (k : String)
    (h : (keysOf l).Nodup) : (keysOf (mapDelete l k)).Nodup :=
  (keysOf_sublist_of_filter l _).nodup h

theorem length_mapDelete (l : List (String × Session)) (k : String)
    (s : Session) (hnd : (keysOf l).Nodup) (h : mapGet l k = some s) :
    (mapDelete l k).length + 1 = l.length := by
  induction l with
  | nil => simp [mapGet_nil] at h
  | cons q l ih =>
      simp only [keysOf, List.map_cons, List.nodup_cons] at hnd
      obtain ⟨hknot, hnd'⟩ := hnd
      rw [mapGet_cons] at h
      simp only [mapDelete, List.filter_cons]
      by_cases hq : q.1 = k
      · rw [if_neg (by simp [hq])]
        have habs : mapGet l k = none := by
          rw [mapGet_eq_none_iff]
          intro p hp e
          exact hknot (by rw [hq, ← e]; exact List.mem_map_of_mem Prod.fst hp)
        have hdel : mapDelete l k = l := mapDelete_of_absent l k habs
        simp only [mapDelete] at hdel
        rw [hdel, List.length_cons]
      · rw [if_pos (by simp [hq])]
        rw [if_neg hq] at h
        rw [List.length_cons, List.length_cons]
        exact congrArg Nat.succ (ih hnd' h)

theorem scanSessions_eq (now : Nat) (l : List (String × Session)) :
    scanSessions now l =
      (l.filter (fun p => decide (now - p.2.lastAccess ≤ SESSION_TIMEOUT_MS)),
       (l.filter
          (fun p => decide (SESSION_TIMEOUT_MS < now - p.2.lastAccess))).map
         Prod.fst) := by
  induction l with
  | nil => rfl
  | cons q l ih =>
      simp only [scanSessions, ih, List.filter_cons]
      by_cases hq : SESSION_TIMEOUT_MS < now - q.2.lastAccess
      · simp [hq, Nat.not_le.mpr hq]
      · simp [hq, Nat.not_lt.mp hq]

/-! Characterizations of the manager operations. -/

theorem closeSession_absent (st : ManagerState) (id : String)
    (h : mapGet st.sessions id = none) : closeSession st id = (st, false) := by
  simp [closeSession, closeSessionSync, h]

theorem closeSession_present (st : ManagerState) (id : String) (s : Session)
    (h : mapGet st.sessions id = some s) :
    closeSession st id =
      ({ st with sessions := mapDelete st.sessions id }, true) := by
  simp [closeSession, closeSessionSync, h]

theorem closeSession_sessions (st : ManagerState) (id : String) :
    (closeSession st id).1.sessions = mapDelete st.sessions id := by
  cases h : mapGet st.sessions id with
  | none => rw [closeSession_absent st id h, mapDelete_of_absent st.sessions id h]
  | some s => rw [closeSession_present st id s h]

theorem closeSession_timer (st : ManagerState) (id : String) :
    (closeSession st id).1.cleanupTimer = st.cleanupTimer := by
  cases h : mapGet st.sessions id with
  | none => rw [closeSession_absent st id h]
  | some s => rw [closeSession_present st id s h]

theorem closeSession_invoked (st : ManagerState) (id : String) :
    (closeSession st id).2 = (mapGet st.sessions id).isSome := by
  cases h : mapGet st.sessions id with
  | none => rw [closeSession_absent st id h]; rfl
  | some s => rw [closeSession_present st id s h]; rfl

theorem closeMany_timer (st : ManagerState) (ids : List String) :
    (closeMany st ids).1.cleanupTimer = st.cleanupTimer := by
  induction ids generalizing st with
  | nil => rfl
  | cons id rest ih =>
      simp only [closeMany]
      rw [ih, closeSession_timer]

theorem closeMany_sessions (st : ManagerState) (ids : List String) :
    (closeMany st ids).1.sessions =
      st.sessions.filter (fun p => decide (p.1 ∉ ids)) := by
  induction ids generalizing st with
  | nil => simp [closeMany]
  | cons id rest ih =>
      simp only [closeMany]
      rw [ih, closeSession_sessions]
      simp only [mapDelete, List.filter_filter]
      apply List.filter_congr
      intro p _
      by_cases h1 : p.1 = id <;> by_cases h2 : p.1 ∈ rest <;>
        simp [h1, h2, List.mem_cons]

theorem closeMany_torn (st : ManagerState) (ids : List String)
    (hnd : ids.Nodup)
    (hall : ∀ id ∈ ids, (mapGet st.sessions id).isSome) :
    (closeMany st ids).2 = ids := by
  induction ids generalizing st with
  | nil => rfl
  | cons id rest ih =>
      obtain ⟨hni, hnd'⟩ := List.nodup_cons.mp hnd
      obtain ⟨s, hs⟩ :=
        Option.isSome_iff_exists.mp (hall id (List.mem_cons_self _ _))
      simp only [closeMany, closeSession_present st id s hs, if_pos]
      rw [ih _ hnd']
      intro id' hid'
      rw [mapGet_mapDelete_ne _ _ _ (fun e => hni (by rw [← e]; exact hid'))]
      exact hall id' (List.mem_cons_of_mem _ hid')

theorem mapGet_isSome_of_mem_keys (l : List (String × Session)) (k : String)
    (h : k ∈ keysOf l) : (mapGet l k).isSome := by
  rw [mapGet_isSome_iff_any]
  exact (any_key_iff_mem l k).mpr h

theorem closeAllSessions_sessions (st : ManagerState) :
    (closeAllSessions st).1.sessions = [] := by
  simp only [closeAllSessions]
  rw [closeMany_sessions]
  rw [List.filter_eq_nil_iff]
  intro p hp
  simp only [decide_eq_true_eq, not_not]
  exact List.mem_map_of_mem Prod.fst hp

theorem closeAllSessions_timer (st : ManagerState) :
    (closeAllSessions st).1.cleanupTimer = false := rfl

theorem closeAllSessions_torn (st : ManagerState) (hWF : WF st) :
    (closeAllSessions st).2 = keysOf st.sessions := by
  simp only [closeAllSessions]
  exact closeMany_torn st _ hWF
    (fun id hid => mapGet_isSome_of_mem_keys st.sessions id hid)

theorem openSession_ok (st : ManagerState) (opts : OpenOptions)
    (conn : Except String Bool) (fid : String) (now : Nat)
    (st' : ManagerState) (sid bt : String)
    (h : openSession st opts conn fid now = .ok (st', sid, bt)) :
    st.sessions.length < MAX_SESSIONS ∧ sid = fid ∧
      bt = opts.browser.getD "chrome" ∧
      ∃ tt, conn = .ok tt ∧
        st' = ⟨mapSet st.sessions fid ⟨now, tt⟩, true⟩ := by
  unfold openSession at h
  by_cases hcap : st.sessions.length ≥ MAX_SESSIONS
  · rw [if_pos hcap] at h; cases h
  · rw [if_neg hcap] at h
    cases conn with
    | error e => cases h
    | ok tt =>
        simp only [Except.ok.injEq, Prod.mk.injEq] at h
        obtain ⟨h1, h2, h3⟩ := h
        exact ⟨Nat.lt_of_not_ge hcap, h2.symm, h3.symm, tt, rfl, h1.symm⟩

theorem openSession_at_capacity (st : ManagerState) (opts : OpenOptions)
    (conn : Except String Bool) (fid : String) (now : Nat)
    (h : st.sessions.length ≥ MAX_SESSIONS) :
    openSession st opts conn fid now =
      .error (.capacityExceeded capacityMessage) := by
  unfold openSession
  rw [if_pos h]

theorem openSession_connect_error (st : ManagerState) (opts : OpenOptions)
    (e : String) (fid : String) (now : Nat)
    (h : st.sessions.length < MAX_SESSIONS) :
    openSession st opts (.error e) fid now = .error (.connectionError e) := by
  unfold openSession
  rw [if_neg (Nat.not_le.mpr h)]

theorem getPage_ok (st : ManagerState) (id : String) (now : Nat)
    (st' : ManagerState) (s' : Session)
    (h : getPage st id now = .ok (st', s')) :
    ∃ s, mapGet st.sessions id = some s ∧ s' = { s with lastAccess := now } ∧
      st' = { st with sessions := mapSet st.sessions id s' } := by
  unfold getPage at h
  cases hg : mapGet st.sessions id with
  | none => rw [hg] at h; cases h
  | some s =>
      rw [hg] at h
      simp only [Except.ok.injEq, Prod.mk.injEq] at h
      obtain ⟨h1, h2⟩ := h
      refine ⟨s, rfl, h2.symm, ?_⟩
      rw [← h1, ← h2]

theorem getPage_absent (st : ManagerState) (id : String) (now : Nat)
    (h : mapGet st.sessions id = none) :
    getPage st id now = .error (.sessionNotFound notFoundMessage) := by
  unfold getPage
  rw [h]

theorem mapGet_filter_none (l : List (String × Session))
    (p : String × Session → Bool) (k : String) (h : mapGet l k = none) :
    mapGet (l.filter p) k = none := by
  rw [mapGet_eq_none_iff] at *
  intro q hq
  exact h q (List.mem_of_mem_filter hq)

theorem mapGet_filter (l : List (String × Session))
    (p : String × Session → Bool) (k : String) (s : Session)
    (hnd : (keysOf l).Nodup) (h : mapGet l k = some s) :
    mapGet (l.filter p) k = if p (k, s) then some s else none := by
  induction l with
  | nil => simp [mapGet_nil] at h
  | cons q l ih =>
      simp only [keysOf, List.map_cons, List.nodup_cons] at hnd
      obtain ⟨hknot, hnd'⟩ := hnd
      rw [mapGet_cons] at h
      rw [List.filter_cons]
      by_cases hq : q.1 = k
      · rw [if_pos hq] at h
        injection h with h2
        have hq2 : q = (k, s) := by
          obtain ⟨a, b⟩ := q
          simp only at hq h2
          rw [hq, h2]
        subst hq2
        simp only at hknot
        have habs : mapGet l k = none := by
          rw [mapGet_eq_none_iff]
          intro r hr e
          exact hknot (by rw [← e]; exact List.mem_map_of_mem Prod.fst hr)
        by_cases hp : p (k, s) = true
        · rw [if_pos hp, if_pos hp, mapGet_cons, if_pos rfl]
        · rw [if_neg hp, if_neg hp]
          exact mapGet_filter_none l p k habs
      · rw [if_neg hq] at h
        by_cases hp : p q = true
        · rw [if_pos hp, mapGet_cons, if_neg hq]
          exact ih hnd' h
        · rw [if_neg hp]
          exact ih hnd' h

/-! Accounting of teardown invocations per session id, for whole-run
resource statements. -/

/-- 1 when `k` is a live key of the entry list, else 0. -/
def keyBit (l : List (String × Session)) (k : String) : Nat :=
  if (mapGet l k).isSome then 1 else 0

/-- Number of `teardown id` events in an event list. -/
def tdCount (evs : List Event) (id : String) : Nat := evs.count (.teardown id)

/-- 1 when the operation is an `openSession` whose generated id is `id`. -/
def openWeight (op : Op) (id : String) : Nat :=
  match op with
  | .openOp _ _ freshId _ => if freshId = id then 1 else 0
  | _ => 0

/-- Number of `openSession` calls in `ops` whose generated id is `id`. -/
def opensCount (ops : List Op) (id : String) : Nat :=
  match ops with
  | [] => 0
  | op :: rest => openWeight op id + opensCount rest id

theorem keyBit_le_one (l : List (String × Session)) (k : String) :
    keyBit l k ≤ 1 := by
  rw [keyBit]
  by_cases h : (mapGet l k).isSome <;> simp [h]

theorem keyBit_cons (q : String × Session) (l : List (String × Session))
    (k : String) : keyBit (q :: l) k = if q.1 = k then 1 else keyBit l k := by
  rw [keyBit, mapGet_cons]
  by_cases h : q.1 = k <;> simp [h, keyBit]

theorem keyBit_of_some (l : List (String × Session)) (k : String) (s : Session)
    (h : mapGet l k = some s) : keyBit l k = 1 := by
  rw [keyBit, h]
  rfl

theorem keyBit_of_none (l : List (String × Session)) (k : String)
    (h : mapGet l k = none) : keyBit l k = 0 := by
  rw [keyBit, h]
  rfl

theorem keyBit_of_not_mem (l : List (String × Session)) (k : String)
    (h : k ∉ keysOf l) : keyBit l k = 0 := by
  apply keyBit_of_none
  rw [← Option.not_isSome_iff_eq_none, mapGet_isSome_iff_any]
  exact fun ha => h ((any_key_iff_mem l k).mp ha)

theorem count_map_teardown (l : List String) (id : String) :
    (l.map Event.teardown).count (Event.teardown id) = l.count id := by
  induction l with
  | nil => rfl
  | cons a l ih =>
      simp only [List.map_cons, List.count_cons, ih, beq_iff_eq,
        Event.teardown.injEq]

theorem scan_td_bound (now : Nat) (l : List (String × Session)) (id : String)
    (hnd : (keysOf l).Nodup) :
    (scanSessions now l).2.count id + keyBit (scanSessions now l).1 id ≤
      keyBit l id := by
  induction l with
  | nil => simp [scanSessions, keyBit, mapGet_nil]
  | cons q l ih =>
      simp only [keysOf, List.map_cons, List.nodup_cons] at hnd
      obtain ⟨hknot, hnd'⟩ := hnd
      have ih' := ih hnd'
      simp only [scanSessions]
      by_cases hq : q.1 = id
      · have hidl : id ∉ keysOf l := fun hm => hknot (hq ▸ hm)
        have h2 : (scanSessions now l).2.count id = 0 := by
          apply List.count_eq_zero_of_not_mem
          intro hm
          rw [scanSessions_eq] at hm
          exact hidl ((keysOf_sublist_of_filter l _).subset hm)
        have h1 : keyBit (scanSessions now l).1 id = 0 := by
          apply keyBit_of_not_mem
          intro hm
          rw [scanSessions_eq] at hm
          exact hidl ((keysOf_sublist_of_filter l _).subset hm)
        by_cases hexp : SESSION_TIMEOUT_MS < now - q.2.lastAccess
        · rw [if_pos hexp]
          simp only [List.count_cons, h1, h2, keyBit_cons, hq, beq_iff_eq,
            if_pos rfl]
          simp
        · rw [if_neg hexp]
          simp only [h2, keyBit_cons, hq, if_pos rfl]
          simp
      · have hkb : keyBit (q :: l) id = keyBit l id := by
          rw [keyBit_cons, if_neg hq]
        by_cases hexp : SESSION_TIMEOUT_MS < now - q.2.lastAccess
        · rw [if_pos hexp]
          simp only [List.count_cons, beq_iff_eq, hq, if_false, hkb]
          simpa using ih'
        · rw [if_neg hexp]
          rw [keyBit_cons]
          simp only [hq, if_false, hkb]
          exact ih'

theorem closeMany_td_bound (st : ManagerState) (ids : List String)
    (id : String) :
    (closeMany st ids).2.count id +
        keyBit (closeMany st ids).1.sessions id ≤
      keyBit st.sessions id := by
  induction ids generalizing st with
  | nil => simp [closeMany]
  | cons cid rest ih =>
      simp only [closeMany]
      cases h : mapGet st.sessions cid with
      | none =>
          rw [closeSession_absent st cid h]
          simpa using ih st
      | some s =>
          rw [closeSession_present st cid s h]
          simp only [if_pos]
          set st1 : ManagerState :=
            { st with sessions := mapDelete st.sessions cid } with hst1
          by_cases hc : cid = id
          · subst hc
            have hz : keyBit st1.sessions cid = 0 :=
              keyBit_of_none _ _ (mapGet_mapDelete_self st.sessions cid)
            have hih := ih st1
            rw [hz] at hih
            have h2 : (closeMany st1 rest).2.count cid = 0 := by omega
            have h1 : keyBit (closeMany st1 rest).1.sessions cid = 0 := by
              omega
            simp only [List.count_cons, beq_iff_eq, if_pos rfl, h1, h2,
              keyBit_of_some st.sessions cid s h]
            simp
          · have heq : keyBit st1.sessions id = keyBit st.sessions id := by
              rw [hst1]
              simp only [keyBit]
              rw [mapGet_mapDelete_ne st.sessions cid id
                (fun e => hc e.symm)]
            have hih := ih st1
            rw [heq] at hih
            simp only [List.count_cons, beq_iff_eq, hc, if_false]
            simpa using hih

theorem step_td_bound (st : ManagerState) (op : Op) (id : String)
    (hWF : WF st) :
    tdCount (step st op).2 id + keyBit (step st op).1.sessions id ≤
      keyBit st.sessions id + openWeight op id := by
  cases op with
  | openOp opts conn fid now =>
      simp only [step]
      cases hres : openSession st opts conn fid now with
      | error e =>
          simp only [tdCount, List.count_nil, Nat.zero_add, openWeight]
          exact Nat.le_add_right _ _
      | ok r =>
          obtain ⟨-, -, -, tt, -, hst⟩ :=
            openSession_ok st opts conn fid now r.1 r.2.1 r.2.2 (by
              rw [hres])
          simp only [tdCount, List.count_nil, Nat.zero_add, openWeight, hst]
          by_cases hf : fid = id
          · subst hf
            calc keyBit (mapSet st.sessions fid ⟨now, tt⟩) fid ≤ 1 :=
                  keyBit_le_one _ _
              _ ≤ keyBit st.sessions fid + if fid = fid then 1 else 0 := by
                  simp
          · rw [if_neg hf, Nat.add_zero, keyBit, keyBit,
              mapGet_mapSet_ne st.sessions fid id _ (fun e => hf e.symm)]
  | getPageOp gid now =>
      simp only [step]
      cases hres : getPage st gid now with
      | error e => simp [tdCount]
      | ok r =>
          obtain ⟨s, hs, hs', hst⟩ := getPage_ok st gid now r.1 r.2 (by
            rw [hres])
          simp only [tdCount, List.count_nil, Nat.zero_add, openWeight, hst,
            Nat.add_zero]
          by_cases hg : gid = id
          · subst hg
            rw [keyBit_of_some _ _ _ (mapGet_mapSet_self st.sessions gid _),
              keyBit_of_some _ _ _ hs]
          · rw [keyBit, mapGet_mapSet_ne st.sessions gid id _
              (fun e => hg e.symm), keyBit]
  | closeOp cid =>
      simp only [step]
      cases h : mapGet st.sessions cid with
      | none =>
          rw [closeSession_absent st cid h]
          simp [tdCount, openWeight]
      | some s =>
          rw [closeSession_present st cid s h]
          simp only [if_pos, openWeight, Nat.add_zero]
          by_cases hc : cid = id
          · subst hc
            rw [keyBit_of_none _ _ (mapGet_mapDelete_self st.sessions cid),
              keyBit_of_some _ _ _ h]
            simp [tdCount]
          · rw [keyBit, mapGet_mapDelete_ne st.sessions cid id
              (fun e => hc e.symm)]
            simp [tdCount, List.count_cons, hc, keyBit]
  | scanOp now =>
      simp only [step]
      by_cases ht : st.cleanupTimer
      · rw [if_pos ht]
        simp only [cleanupScan, tdCount, count_map_teardown, openWeight,
          Nat.add_zero]
        exact scan_td_bound now st.sessions id hWF
      · rw [if_neg ht]
        simp [tdCount, openWeight]
  | closeAllOp =>
      simp only [step, closeAllSessions, tdCount, count_map_teardown,
        openWeight, Nat.add_zero]
      exact closeMany_td_bound st (keysOf st.sessions) id
  | disconnectOp did =>
      simp only [step, tdCount, List.count_nil, Nat.zero_add, openWeight,
        Nat.add_zero]
      by_cases hd : did = id
      · subst hd
        rw [keyBit_of_none _ _ (mapGet_mapDelete_self st.sessions did)]
        exact Nat.zero_le _
      · rw [keyBit, mapGet_mapDelete_ne st.sessions did id
          (fun e => hd e.symm), keyBit]

theorem step_WF (st : ManagerState) (op : Op) (hWF : WF st) :
    WF (step st op).1 := by
  cases op with
  | openOp opts conn fid now =>
      simp only [step]
      cases hres : openSession st opts conn fid now with
      | error e => exact hWF
      | ok r =>
          obtain ⟨-, -, -, tt, -, hst⟩ :=
            openSession_ok st opts conn fid now r.1 r.2.1 r.2.2 (by
              rw [hres])
          rw [hst]
          exact nodup_keysOf_mapSet st.sessions fid _ hWF
  | getPageOp gid now =>
      simp only [step]
      cases hres : getPage st gid now with
      | error e => exact hWF
      | ok r =>
          obtain ⟨s, hs, hs', hst⟩ := getPage_ok st gid now r.1 r.2 (by
            rw [hres])
          rw [hst]
          exact nodup_keysOf_mapSet st.sessions gid _ hWF
  | closeOp cid =>
      simp only [step, WF, closeSession_sessions]
      exact nodup_keysOf_mapDelete st.sessions cid hWF
  | scanOp now =>
      simp only [step]
      by_cases ht : st.cleanupTimer
      · rw [if_pos ht]
        simp only [cleanupScan, WF, scanSessions_eq]
        exact (keysOf_sublist_of_filter st.sessions _).nodup hWF
      · rw [if_neg ht]; exact hWF
  | closeAllOp =>
      simp only [step, WF, closeAllSessions_sessions]
      exact List.nodup_nil
  | disconnectOp did =>
      simp only [step, WF]
      exact nodup_keysOf_mapDelete st.sessions did hWF

theorem step_capacity (st : ManagerState) (op : Op)
    (h : st.sessions.length ≤ MAX_SESSIONS) :
    (step st op).1.sessions.length ≤ MAX_SESSIONS := by
  cases op with
  | openOp opts conn fid now =>
      simp only [step]
      cases hres : openSession st opts conn fid now with
      | error e => exact h
      | ok r =>
          obtain ⟨hlt, -, -, tt, -, hst⟩ :=
            openSession_ok st opts conn fid now r.1 r.2.1 r.2.2 (by
              rw [hres])
          rw [hst]
          simp only [length_mapSet]
          by_cases ha : st.sessions.any (fun p => p.1 = fid) <;>
            simp [ha] <;> omega
  | getPageOp gid now =>
      simp only [step]
      cases hres : getPage st gid now with
      | error e => exact h
      | ok r =>
          obtain ⟨s, hs, hs', hst⟩ := getPage_ok st gid now r.1 r.2 (by
            rw [hres])
          rw [hst]
          simp only [length_mapSet]
          rw [if_pos (by rw [← mapGet_isSome_iff_any, hs]; rfl)]
          exact h
  | closeOp cid =>
      simp only [step, closeSession_sessions, mapDelete]
      exact le_trans (List.length_filter_le _ _) h
  | scanOp now =>
      simp only [step]
      by_cases ht : st.cleanupTimer
      · rw [if_pos ht]
        simp only [cleanupScan, scanSessions_eq]
        exact le_trans (List.length_filter_le _ _) h
      · rw [if_neg ht]; exact h
  | closeAllOp =>
      simp only [step, closeAllSessions_sessions]
      exact Nat.zero_le _
  | disconnectOp did =>
      simp only [step, mapDelete]
      exact le_trans (List.length_filter_le _ _) h

/-- The lifecycle property that does hold of the timer: whenever the
table is non-empty, the timer is armed. -/
def TimerOK (st : ManagerState) : Prop :=
  st.sessions ≠ [] → st.cleanupTimer = true

theorem step_timerOK (st : ManagerState) (op : Op) (h : TimerOK st) :
    TimerOK (step st op).1 := by
  cases op with
  | openOp opts conn fid now =>
      simp only [step]
      cases hres : openSession st opts conn fid now with
      | error e => exact h
      | ok r =>
          obtain ⟨-, -, -, tt, -, hst⟩ :=
            openSession_ok st opts conn fid now r.1 r.2.1 r.2.2 (by
              rw [hres])
          rw [hst]
          exact fun _ => rfl
  | getPageOp gid now =>
      simp only [step]
      cases hres : getPage st gid now with
      | error e => exact h
      | ok r =>
          obtain ⟨s, hs, hs', hst⟩ := getPage_ok st gid now r.1 r.2 (by
            rw [hres])
          rw [hst]
          intro _
          apply h
          intro hnil
          rw [hnil] at hs
          exact Option.noConfusion hs
  | closeOp cid =>
      intro hne
      simp only [step] at hne ⊢
      rw [closeSession_timer]
      apply h
      intro hnil
      rw [closeSession_sessions, hnil] at hne
      simp [mapDelete] at hne
  | scanOp now =>
      simp only [step]
      by_cases ht : st.cleanupTimer
      · rw [if_pos ht]
        intro hne
        simp only [cleanupScan] at hne ⊢
        rw [if_neg (by simpa using hne), ht]
      · rw [if_neg ht]; exact h
  | closeAllOp =>
      intro hne
      exfalso
      apply hne
      simp only [step]
      exact closeAllSessions_sessions st
  | disconnectOp did =>
      intro hne
      simp only [step] at hne ⊢
      apply h
      intro hnil
      rw [hnil] at hne
      simp [mapDelete] at hne

theorem run_td_bound (st : ManagerState) (ops : List Op) (id : String)
    (hWF : WF st) :
    tdCount (run st ops).2 id + keyBit (run st ops).1.sessions id ≤
      keyBit st.sessions id + opensCount ops id := by
  induction ops generalizing st with
  | nil => simp [run, tdCount, opensCount]
  | cons op ops ih =>
      simp only [run, opensCount]
      have h1 := step_td_bound st op id hWF
      have h2 := ih (step st op).1 (step_WF st op hWF)
      simp only [tdCount, List.count_append] at *
      omega

theorem run_WF (st : ManagerState) (ops : List Op) (hWF : WF st) :
    WF (run st ops).1 := by
  induction ops generalizing st with
  | nil => exact hWF
  | cons op ops ih => exact ih (step st op).1 (step_WF st op hWF)

theorem run_capacity (st : ManagerState) (ops : List Op)
    (h : st.sessions.length ≤ MAX_SESSIONS) :
    (run st ops).1.sessions.length ≤ MAX_SESSIONS := by
  induction ops generalizing st with
  | nil => exact h
  | cons op ops ih => exact ih (step st op).1 (step_capacity st op h)

theorem run_timerOK (st : ManagerState) (ops : List Op) (h : TimerOK st) :
    TimerOK (run st ops).1 := by
  induction ops generalizing st with
  | nil => exact h
  | cons op ops ih => exact ih (step st op).1 (step_timerOK st op h)

theorem cleanupScan_mapGet (st : ManagerState) (now : Nat) (id : String)
    (s : Session) (hWF : WF st) (h : mapGet st.sessions id = some s) :
    mapGet (cleanupScan st now).1.sessions id =
      (if now - s.lastAccess ≤ SESSION_TIMEOUT_MS then some s else none) ∧
    (id ∈ (cleanupScan st now).2 ↔
      SESSION_TIMEOUT_MS < now - s.lastAccess) := by
  constructor
  · simp only [cleanupScan, scanSessions_eq]
    rw [mapGet_filter st.sessions _ id s hWF h]
    by_cases hc : now - s.lastAccess ≤ SESSION_TIMEOUT_MS
    · rw [if_pos (by simpa using hc), if_pos hc]
    · rw [if_neg (by simpa using hc), if_neg hc]
  · simp only [cleanupScan, scanSessions_eq]
    constructor
    · intro hm
      have hsome := mapGet_isSome_of_mem_keys _ id hm
      rw [mapGet_filter st.sessions _ id s hWF h] at hsome
      by_cases hc : SESSION_TIMEOUT_MS < now - s.lastAccess
      · exact hc
      · rw [if_neg (by simpa using hc)] at hsome
        cases hsome
    · intro hc
      have hsome : mapGet
          (st.sessions.filter
            (fun p => decide (SESSION_TIMEOUT_MS < now - p.2.lastAccess)))
          id = some s := by
        rw [mapGet_filter st.sessions _ id s hWF h,
          if_pos (by simpa using hc)]
      apply (any_key_iff_mem _ id).mp
      rw [← mapGet_isSome_iff_any, hsome]
      rfl

/-! Settlement of the specification claims. -/

/-- C1: a call to `openSession` made while the live-session count equals
the capacity limit 5 fails with the `CapacityExceeded` error, whose
message contains "Maximum 5" and instructs the caller to close an
existing session first, and the failed call leaves the session table,
the count and the timer unchanged and performs no teardown. -/
theorem open_at_capacity_rejected (st : ManagerState) (opts : OpenOptions)
    (conn : Except String Bool) (fid : String) (now : Nat)
    (h : getSessionCount st = MAX_SESSIONS) :
    openSession st opts conn fid now =
      .error (.capacityExceeded capacityMessage) ∧
    "Maximum 5".toList <:+: capacityMessage.toList ∧
    "Close an existing session with spider_browser_close first.".toList <:+:
      capacityMessage.toList ∧
    step st (.openOp opts conn fid now) = (st, []) := by
  have hge : st.sessions.length ≥ MAX_SESSIONS := le_of_eq h.symm
  refine ⟨openSession_at_capacity st opts conn fid now hge, by decide,
    by decide, ?_⟩
  simp only [step, openSession_at_capacity st opts conn fid now hge]

/-- Witness for C1: a concrete state holding exactly 5 sessions rejects a
6th open and is left untouched. -/
theorem open_at_capacity_rejected_witness :
    openSession
        ⟨[("a", ⟨0, false⟩), ("b", ⟨1, false⟩), ("c", ⟨2, false⟩),
          ("d", ⟨3, false⟩), ("e", ⟨4, false⟩)], true⟩
        ⟨none, none, none, none⟩ (.ok false) "f" 7 =
      .error (.capacityExceeded capacityMessage) ∧
    "Maximum 5".toList <:+: capacityMessage.toList ∧
    "Close an existing session with spider_browser_close first.".toList <:+:
      capacityMessage.toList ∧
    step ⟨[("a", ⟨0, false⟩), ("b", ⟨1, false⟩), ("c", ⟨2, false⟩),
          ("d", ⟨3, false⟩), ("e", ⟨4, false⟩)], true⟩
        (.openOp ⟨none, none, none, none⟩ (.ok false) "f" 7) =
      (⟨[("a", ⟨0, false⟩), ("b", ⟨1, false⟩), ("c", ⟨2, false⟩),
          ("d", ⟨3, false⟩), ("e", ⟨4, false⟩)], true⟩, []) :=
  open_at_capacity_rejected _ _ _ _ _ (by decide)

/-- C2 counterexample: the claim says that under every interleaving of
concurrent `openSession` calls the live count stays at most 5, because
check and insertion would have no suspension point between them. In the
code the `await puppeteer.connect` (and the page handshake) sits between
the check (line 60) and the insertion (line 84), so two opens can both
pass the check at count 4 and both insert: the schedule below drives six
concurrent opens to a table of 6 > 5 sessions. -/
theorem concurrent_opens_exceed_capacity :
    (runConc sixOpens overCapSchedule).map
        (fun cs => cs.mgr.sessions.length) = some 6 ∧
    MAX_SESSIONS < 6 := by
  exact ⟨by decide, by decide⟩

/-- C2 amended: the capacity check and the insertion are separated by the
connection-establishment suspension points, so interleaved opens can
exceed the limit; what the code does guarantee is that in executions
where `openSession` calls do not interleave (each call runs to
completion before the next operation starts — the sequential semantics
`run`), the live count never exceeds 5. -/
theorem sequential_capacity_invariant (ops : List Op) :
    getSessionCount (run initState ops).1 ≤ MAX_SESSIONS :=
  run_capacity initState ops (by decide)

/-- C3: for an id that is a live session, `closeSession` removes the
table entry in its synchronous prefix, before the teardown await begins
(and the final state equals that prefix state, teardown errors being
swallowed), so `getPage` on that id afterwards — even while teardown is
still in flight — fails with the `SessionNotFound` error. -/
theorem close_then_get_not_found (st : ManagerState) (id : String)
    (now : Nat) (s : Session) (h : mapGet st.sessions id = some s) :
    closeSession st id = closeSessionSync st id ∧
    (closeSessionSync st id).2 = true ∧
    mapGet (closeSessionSync st id).1.sessions id = none ∧
    getPage (closeSession st id).1 id now =
      .error (.sessionNotFound notFoundMessage) := by
  refine ⟨rfl, ?_, ?_, ?_⟩
  · simp [closeSessionSync, h]
  · simp only [closeSessionSync, h]
    exact mapGet_mapDelete_self st.sessions id
  · apply getPage_absent
    rw [closeSession_sessions]
    exact mapGet_mapDelete_self st.sessions id

/-- Witness for C3 at a concrete one-session state. -/
theorem close_then_get_not_found_witness :
    closeSession ⟨[("a", ⟨3, false⟩)], true⟩ "a" =
      closeSessionSync ⟨[("a", ⟨3, false⟩)], true⟩ "a" ∧
    (closeSessionSync ⟨[("a", ⟨3, false⟩)], true⟩ "a").2 = true ∧
    mapGet (closeSessionSync ⟨[("a", ⟨3, false⟩)], true⟩ "a").1.sessions
      "a" = none ∧
    getPage (closeSession ⟨[("a", ⟨3, false⟩)], true⟩ "a").1 "a" 9 =
      .error (.sessionNotFound notFoundMessage) :=
  close_then_get_not_found _ "a" 9 ⟨3, false⟩ (by decide)

/-- C4: a reaper scan at time `now` keeps a live session exactly when its
idle time does not strictly exceed the 5-minute threshold, and tears it
down exactly when it does; and since a successful `getPage` at time `t`
refreshes `lastAccess` to `t`, the session survives a subsequent scan at
`now` whenever `now - t ≤ SESSION_TIMEOUT_MS` (the 4:59-then-access
scenario). -/
theorem reaper_exact_threshold (st : ManagerState) (now : Nat) (id : String)
    (s : Session) (hWF : WF st) (h : mapGet st.sessions id = some s) :
    (mapGet (cleanupScan st now).1.sessions id =
      if now - s.lastAccess ≤ SESSION_TIMEOUT_MS then some s else none) ∧
    (id ∈ (cleanupScan st now).2 ↔
      SESSION_TIMEOUT_MS < now - s.lastAccess) ∧
    (∀ t st' s', getPage st id t = .ok (st', s') →
      mapGet (cleanupScan st' now).1.sessions id =
        if now - t ≤ SESSION_TIMEOUT_MS then some s' else none) := by
  obtain ⟨h1, h2⟩ := cleanupScan_mapGet st now id s hWF h
  refine ⟨h1, h2, ?_⟩
  intro t st' s' hget
  obtain ⟨s0, hs0, hs', hst⟩ := getPage_ok st id t st' s' hget
  have hWF' : WF st' := by
    rw [hst]
    exact nodup_keysOf_mapSet st.sessions id s' hWF
  have hget' : mapGet st'.sessions id = some s' := by
    rw [hst]
    exact mapGet_mapSet_self st.sessions id s'
  obtain ⟨h1', -⟩ := cleanupScan_mapGet st' now id s' hWF' hget'
  rw [h1', hs']

/-- Witness for C4: a session last accessed at 0 is reaped by a scan at
`SESSION_TIMEOUT_MS + 1`. -/
theorem reaper_exact_threshold_witness :
    mapGet (cleanupScan ⟨[("a", ⟨0, false⟩)], true⟩ 300001).1.sessions
      "a" = none := by
  have h := reaper_exact_threshold ⟨[("a", ⟨0, false⟩)], true⟩ 300001 "a"
    ⟨0, false⟩ (by decide) (by decide)
  rw [h.1]
  decide

/-- C5: a successful `openSession` with a fresh id raises
`getSessionCount` by exactly 1; `closeSession` on a live id lowers it by
exactly 1; and `closeSession` on an absent id returns (it cannot throw:
its result type is plain) without invoking any teardown and with the
state unchanged. -/
theorem sessionCount_delta (st : ManagerState) (hWF : WF st) :
    (∀ opts tt fid now st' rest, fid ∉ keysOf st.sessions →
      openSession st opts (.ok tt) fid now = .ok (st', rest) →
      getSessionCount st' = getSessionCount st + 1) ∧
    (∀ id s, mapGet st.sessions id = some s →
      getSessionCount (closeSession st id).1 + 1 = getSessionCount st) ∧
    (∀ id, mapGet st.sessions id = none →
      closeSession st id = (st, false)) := by
  refine ⟨?_, ?_, ?_⟩
  · intro opts tt fid now st' rest hfresh hok
    obtain ⟨hlt, -, -, tt', -, hst⟩ :=
      openSession_ok st opts (.ok tt) fid now st' rest.1 rest.2 (by
        rw [hok])
    rw [hst]
    simp only [getSessionCount, length_mapSet]
    rw [if_neg (fun ha => hfresh ((any_key_iff_mem _ _).mp ha))]
  · intro id s h
    rw [closeSession_present st id s h]
    simp only [getSessionCount]
    exact length_mapDelete st.sessions id s hWF h
  · intro id h
    exact closeSession_absent st id h

/-- Witness for C5: at a concrete one-session state, a fresh open makes
the count 2, closing the live id makes it 0+1, and closing an unknown id
is an identity. -/
theorem sessionCount_delta_witness :
    getSessionCount
        (⟨mapSet [("a", ⟨0, false⟩)] "b" ⟨7, false⟩, true⟩ : ManagerState) =
      getSessionCount ⟨[("a", ⟨0, false⟩)], true⟩ + 1 ∧
    getSessionCount (closeSession ⟨[("a", ⟨0, false⟩)], true⟩ "a").1 + 1 =
      getSessionCount ⟨[("a", ⟨0, false⟩)], true⟩ ∧
    closeSession ⟨[("a", ⟨0, false⟩)], true⟩ "zz" =
      (⟨[("a", ⟨0, false⟩)], true⟩, false) := by
  have h := sessionCount_delta ⟨[("a", ⟨0, false⟩)], true⟩ (by decide)
  exact ⟨h.1 ⟨none, none, none, none⟩ false "b" 7 _ ("b", "chrome")
      (by decide) rfl,
    h.2.1 "a" ⟨0, false⟩ (by decide), h.2.2 "zz" (by decide)⟩

/-- C6: `closeAllSessions` empties the table (count 0), attempts the
teardown of every tracked session (the torn-down ids are exactly the
table's keys, in order, even when some sessions' teardowns throw — the
`teardownThrows` components of `st` are arbitrary here), stops the
reaper timer, and cannot throw (its result type is plain, every
individual teardown error being swallowed inside `closeSession`). -/
theorem closeAll_complete (st : ManagerState) (hWF : WF st) :
    (closeAllSessions st).1.sessions = [] ∧
    getSessionCount (closeAllSessions st).1 = 0 ∧
    (closeAllSessions st).1.cleanupTimer = false ∧
    (closeAllSessions st).2 = keysOf st.sessions := by
  refine ⟨closeAllSessions_sessions st, ?_, closeAllSessions_timer st,
    closeAllSessions_torn st hWF⟩
  simp [getSessionCount, closeAllSessions_sessions st]

/-- Witness for C6: two sessions, the first of which has a throwing
teardown; both are still torn down and the count reaches 0. -/
theorem closeAll_complete_witness :
    (closeAllSessions ⟨[("a", ⟨0, true⟩), ("b", ⟨5, false⟩)], true⟩).1.sessions
      = [] ∧
    getSessionCount
      (closeAllSessions ⟨[("a", ⟨0, true⟩), ("b", ⟨5, false⟩)], true⟩).1 = 0 ∧
    (closeAllSessions
      ⟨[("a", ⟨0, true⟩), ("b", ⟨5, false⟩)], true⟩).1.cleanupTimer = false ∧
    (closeAllSessions ⟨[("a", ⟨0, true⟩), ("b", ⟨5, false⟩)], true⟩).2 =
      keysOf [("a", ⟨0, true⟩), ("b", ⟨5, false⟩)] :=
  closeAll_complete _ (by decide)

/-- C7: when establishing the remote connection fails, `openSession`
propagates the failure as a `ConnectionError` carrying the collaborator's
message verbatim, and the step leaves the session table, the count and
the reaper timer exactly as they were, emitting no event. -/
theorem connect_failure_propagates (st : ManagerState) (opts : OpenOptions)
    (e : String) (fid : String) (now : Nat)
    (h : getSessionCount st < MAX_SESSIONS) :
    openSession st opts (.error e) fid now = .error (.connectionError e) ∧
    step st (.openOp opts (.error e) fid now) = (st, []) := by
  refine ⟨openSession_connect_error st opts e fid now h, ?_⟩
  simp only [step, openSession_connect_error st opts e fid now h]

/-- Witness for C7 at a concrete one-session state. -/
theorem connect_failure_propagates_witness :
    openSession ⟨[("a", ⟨0, false⟩)], true⟩ ⟨none, none, none, none⟩
        (.error "ws refused") "b" 9 =
      .error (.connectionError "ws refused") ∧
    step ⟨[("a", ⟨0, false⟩)], true⟩
        (.openOp ⟨none, none, none, none⟩ (.error "ws refused") "b" 9) =
      (⟨[("a", ⟨0, false⟩)], true⟩, []) :=
  connect_failure_propagates _ _ _ _ _ (by decide)

/-- C8 counterexample: the claim says the reaper task reference is null
at every instant the table is empty. In the code `closeSession` never
clears `cleanupTimer`; after opening one session and closing it the
table is empty yet the timer is still armed (it stays armed until the
next scan observes the empty table, or `closeAllSessions` runs). -/
theorem timer_armed_while_table_empty :
    (run initState [.openOp ⟨none, none, none, none⟩ (.ok false) "a" 0,
        .closeOp "a"]).1.sessions = [] ∧
    (run initState [.openOp ⟨none, none, none, none⟩ (.ok false) "a" 0,
        .closeOp "a"]).1.cleanupTimer = true :=
  ⟨by decide, by decide⟩

/-- C8 amended: one direction of the claimed equivalence holds — in every
reachable state, the timer is armed whenever the table is non-empty
(armed by the `open` that makes it non-empty); but when the table becomes
empty the timer is not stopped at that instant, only by the next reaper
scan that observes the empty table or by `closeAllSessions`. -/
theorem timer_armed_when_nonempty (ops : List Op)
    (h : (run initState ops).1.sessions ≠ []) :
    (run initState ops).1.cleanupTimer = true :=
  run_timerOK initState ops (fun hne => absurd rfl hne) h

/-- Witness for the amended C8: after one open the table is non-empty and
the timer is armed. -/
theorem timer_armed_when_nonempty_witness :
    (run initState
        [.openOp ⟨none, none, none, none⟩ (.ok false) "a" 0]).1.cleanupTimer
      = true :=
  timer_armed_when_nonempty _ (by decide)

/-- C9 counterexample: the claim says the returned engine descriptor is
what was actually connected, a requested "auto" resolving to a concrete
engine name. In the code the descriptor is computed as
`options?.browser ?? "chrome"` — a verbatim echo: a request of "auto" is
returned as the literal string "auto", not resolved to any concrete
engine. -/
theorem auto_request_echoed_not_resolved :
    openSession initState ⟨some "auto", none, none, none⟩ (.ok false)
        "s1" 0 =
      .ok (⟨[("s1", ⟨0, false⟩)], true⟩, "s1", "auto") := rfl

/-- C9 amended: the descriptor returned by a successful `openSession` is
the requested engine string echoed verbatim when one was given (including
"auto"), and the literal "chrome" when none was; nothing from the actual
connection feeds into it. The returned id is the generated fresh id. -/
theorem browserType_echoes_request (st : ManagerState) (opts : OpenOptions)
    (conn : Except String Bool) (fid : String) (now : Nat)
    (st' : ManagerState) (sid bt : String)
    (h : openSession st opts conn fid now = .ok (st', sid, bt)) :
    bt = opts.browser.getD "chrome" ∧ sid = fid := by
  obtain ⟨-, h1, h2, -⟩ := openSession_ok st opts conn fid now st' sid bt h
  exact ⟨h2, h1⟩

/-- Witness for the amended C9: a requested "firefox" is echoed. -/
theorem browserType_echoes_request_witness :
    ("firefox" : String) =
      (OpenOptions.mk (some "firefox") none none none).browser.getD
        "chrome" ∧ ("s1" : String) = "s1" :=
  browserType_echoes_request initState
    ⟨some "firefox", none, none, none⟩ (.ok false) "s1" 0
    ⟨[("s1", ⟨0, false⟩)], true⟩ "s1" "firefox" rfl

/-- C10: over any operation sequence from the initial state in which at
most one `openSession` generates a given id (ids are fresh UUIDs), the
underlying connection teardown for that id is invoked at most once:
`closeSession` deletes the entry synchronously before awaiting teardown,
so later or racing closes, reaper scans, `closeAllSessions` runs and
disconnect events find the entry absent and perform no second
teardown. -/
theorem teardown_at_most_once (ops : List Op) (id : String)
    (h : opensCount ops id ≤ 1) :
    tdCount (run initState ops).2 id ≤ 1 := by
  have hb := run_td_bound initState ops id (by decide)
  have h0 : keyBit initState.sessions id = 0 := keyBit_of_none _ _ rfl
  omega

/-- Witness for C10: open, close twice, scan, close-all — the teardown
for the id fires exactly once (hence at most once). -/
theorem teardown_at_most_once_witness :
    tdCount (run initState
        [.openOp ⟨none, none, none, none⟩ (.ok false) "a" 0,
         .closeOp "a", .closeOp "a", .scanOp 900000, .closeAllOp]).2 "a"
      ≤ 1 :=
  teardown_at_most_once _ "a" (by decide)

end SpiderMcp
